import Mathlib

/-!
Verification of the corefinement driver and observers of
`src/cgalutils-corefine.cc` (namespace `CGALUtils`).

The development shallowly embeds:
* the lazy-exact number type (`LazyExactNT`) with its pending deferred-expression
  depth and the `CGAL.exact` forcing operation;
* a triangle mesh (`TriangleMesh`) with indexed vertex coordinates and faces as
  vertex-index lists, matching the capability set the code uses
  (`tm.point(v)` read/write, `vertices_around_face`);
* the two shapes of `ExactLazyNumbersVisitor` (the per-vertex
  `new_vertex_added` callback of CGAL ≥ 5.4, and the three-phase
  `before_subface_creations` / `after_subface_created` /
  `after_subface_creations` callbacks of older CGAL);
* the three driver entry points `corefineAndComputeUnion`,
  `corefineAndComputeIntersection`, `corefineAndComputeDifference` as
  trace-producing functions over a (possibly time-varying) feature-toggle
  source, an externally supplied engine result and an externally supplied
  remesh outcome.
-/

namespace Corefine

/-- A lazy-exact number: its exact rational value together with the depth of
the deferred (lazy) expression tree still attached to it; depth `0` means the
value is fully evaluated. -/
structure LazyExactNT where
  value : ℚ
  depth : ℕ
deriving DecidableEq, Repr

instance : Inhabited LazyExactNT := ⟨⟨0, 0⟩⟩

namespace CGAL

/-- `CGAL::exact`: force a lazy-exact number to its fully evaluated exact form;
the value is unchanged and no deferred expression remains. -/
def exact (n : LazyExactNT) : LazyExactNT := ⟨n.value, 0⟩

end CGAL

/-- A 3D point whose components are lazy-exact numbers. -/
structure Point3 where
  x : LazyExactNT
  y : LazyExactNT
  z : LazyExactNT
deriving DecidableEq, Repr

instance : Inhabited Point3 := ⟨⟨default, default, default⟩⟩

/-- Force all three coordinates of a point, as the visitor callbacks do
(`CGAL::exact(pt.x()); CGAL::exact(pt.y()); CGAL::exact(pt.z())`). -/
def Point3.forceExact (p : Point3) : Point3 :=
  ⟨CGAL.exact p.x, CGAL.exact p.y, CGAL.exact p.z⟩

/-- All three components are fully evaluated: zero pending
deferred-evaluation depth. -/
def Point3.isExact (p : Point3) : Prop :=
  p.x.depth = 0 ∧ p.y.depth = 0 ∧ p.z.depth = 0

instance (p : Point3) : Decidable p.isExact := by
  unfold Point3.isExact; infer_instance

/-- A triangle mesh: vertex coordinates indexed by vertex id, and faces given
as lists of vertex indices. -/
structure TriangleMesh where
  points : List Point3
  faces : List (List ℕ)
deriving DecidableEq, Repr

/-- `tm.point(v)`. -/
def TriangleMesh.point (m : TriangleMesh) (v : ℕ) : Point3 :=
  m.points.getD v default

/-- Writing through the reference returned by `tm.point(v)`. -/
def TriangleMesh.setPoint (m : TriangleMesh) (v : ℕ) (p : Point3) : TriangleMesh :=
  { m with points := m.points.set v p }

/-- `vertices_around_face(mesh.halfedge(fi), mesh)`. -/
def verticesAroundFace (m : TriangleMesh) (fi : ℕ) : List ℕ :=
  m.faces.getD fi []

/-- CGAL ≥ 5.4 shape: `new_vertex_added(i_id, v, tm)` forces the three
coordinates of the newly added vertex `v`. -/
def new_vertex_added (_i_id : ℕ) (v : ℕ) (m : TriangleMesh) : TriangleMesh :=
  m.setPoint v (m.point v).forceExact

/-- State of the pre-5.4 `ExactLazyNumbersVisitor`: the face being split and
the per-split accumulation buffer of created faces. -/
structure ExactLazyNumbersVisitor where
  split_face : ℕ
  created_faces : List ℕ
deriving DecidableEq, Repr

/-- `before_subface_creations(f_split, tm)`: record the split face and clear
the buffer. -/
def before_subface_creations (_vis : ExactLazyNumbersVisitor) (f_split : ℕ) :
    ExactLazyNumbersVisitor :=
  { split_face := f_split, created_faces := [] }

/-- `after_subface_created(fi, tm)`: push the created face. -/
def after_subface_created (vis : ExactLazyNumbersVisitor) (fi : ℕ) :
    ExactLazyNumbersVisitor :=
  { vis with created_faces := vis.created_faces ++ [fi] }

/-- Fold forcing the coordinates of each vertex in a list to exact form. -/
def forceVertexList (m : TriangleMesh) (l : List ℕ) : TriangleMesh :=
  l.foldl (fun mm v => mm.setPoint v (mm.point v).forceExact) m

/-- `after_subface_creations(mesh)`: for every recorded created face, force
all coordinates of all its vertices; then clear the buffer. -/
def after_subface_creations (vis : ExactLazyNumbersVisitor) (m : TriangleMesh) :
    ExactLazyNumbersVisitor × TriangleMesh :=
  ({ vis with created_faces := [] },
   vis.created_faces.foldl (fun mm fi => forceVertexList mm (verticesAroundFace mm fi)) m)

/-- One split event as emitted by the corefinement engine: the original face,
the faces created from it, and the vertices it introduced. -/
structure SplitEvent where
  splitFace : ℕ
  createdFaces : List ℕ
  newVertices : List ℕ
deriving Repr

/-- Processing one split event with the per-vertex shape (CGAL ≥ 5.4): one
`new_vertex_added` notification per introduced vertex. -/
def processEventPerVertex (m : TriangleMesh) (e : SplitEvent) : TriangleMesh :=
  e.newVertices.foldl (fun mm v => new_vertex_added 0 v mm) m

/-- Processing one split event with the three-phase shape (pre-5.4):
begin-split, one created-face notification per created face, end-split. -/
def processEventThreePhase (vis : ExactLazyNumbersVisitor) (m : TriangleMesh)
    (e : SplitEvent) : ExactLazyNumbersVisitor × TriangleMesh :=
  let vis1 := before_subface_creations vis e.splitFace
  let vis2 := e.createdFaces.foldl after_subface_created vis1
  after_subface_creations vis2 m

/-- The requested Boolean operation. -/
inductive Op
  | union
  | intersection
  | difference
deriving DecidableEq, Repr

/-- Which observers (named parameters) the driver passes to the engine call. -/
inductive ObserverSetup
  | noObservers
  | exactLazyNumbersVisitor
  | corefinementVisitor (exactCallback : Bool)
deriving DecidableEq, Repr

/-- Observable events of one driver call, in order. -/
inductive Ev
  | readRemeshToggle (value : Bool)
  | readExactToggle (value : Bool)
  | engineCall (op : Op) (obs : ObserverSetup) (result : Bool)
  | remeshPass (ok : Bool)
deriving DecidableEq, Repr

/-- Whether an event is a read of the process-wide feature configuration. -/
def Ev.isToggleRead : Ev → Bool
  | .readRemeshToggle _ => true
  | .readExactToggle _ => true
  | _ => false

/-- Snapshot of the two process-wide feature toggles
(`Feature::ExperimentalFastCsgRemesh`,
`Feature::ExperimentalFastCsgExactCorefinementCallback`). -/
structure FeatureState where
  remeshEnabled : Bool
  exactEnabled : Bool
deriving DecidableEq, Repr

/-- The driver body shared verbatim by the three entry points of
`cgalutils-corefine.cc`: read the remesh toggle, then the exact-callback
toggle, then branch. `cfg` is the process-wide configuration indexed by read
instant (the first read happens at instant 0, the second at instant 1);
`engineResult` is the boolean returned by the engine's
`corefine_and_compute_*` call; `remeshOk` is the outcome of the remesh pass
(modelled from the spec: remeshing may fail to preserve manifoldness). The
first component is the driver's return value, the second the event trace. -/
def corefineAndComputeBody (op : Op) (cfg : ℕ → FeatureState)
    (engineResult : Bool) (remeshOk : Bool) : Bool × List Ev :=
  let remesh := (cfg 0).remeshEnabled
  let exactCallback := (cfg 1).exactEnabled
  let reads : List Ev := [.readRemeshToggle remesh, .readExactToggle exactCallback]
  if exactCallback && !remesh then
    (engineResult, reads ++ [.engineCall op .exactLazyNumbersVisitor engineResult])
  else if remesh then
    (engineResult,
     reads ++ [.engineCall op (.corefinementVisitor exactCallback) engineResult,
               .remeshPass remeshOk])
  else
    (engineResult, reads ++ [.engineCall op .noObservers engineResult])

/-- `CGALUtils::corefineAndComputeUnion`. -/
def corefineAndComputeUnion (cfg : ℕ → FeatureState) (engineResult : Bool)
    (remeshOk : Bool) : Bool × List Ev :=
  corefineAndComputeBody .union cfg engineResult remeshOk

/-- `CGALUtils::corefineAndComputeIntersection`. -/
def corefineAndComputeIntersection (cfg : ℕ → FeatureState) (engineResult : Bool)
    (remeshOk : Bool) : Bool × List Ev :=
  corefineAndComputeBody .intersection cfg engineResult remeshOk

/-- `CGALUtils::corefineAndComputeDifference`. -/
def corefineAndComputeDifference (cfg : ℕ → FeatureState) (engineResult : Bool)
    (remeshOk : Bool) : Bool × List Ev :=
  corefineAndComputeBody .difference cfg engineResult remeshOk

/-- Dispatch on the requested operation, to quantify over all three entry
points at once. -/
def execute (op : Op) (cfg : ℕ → FeatureState) (engineResult : Bool)
    (remeshOk : Bool) : Bool × List Ev :=
  match op with
  | .union => corefineAndComputeUnion cfg engineResult remeshOk
  | .intersection => corefineAndComputeIntersection cfg engineResult remeshOk
  | .difference => corefineAndComputeDifference cfg engineResult remeshOk

/-- Whether a face index belongs to some recorded split region. -/
def inRecordedRegion (regions : List (List ℕ)) (fi : ℕ) : Bool :=
  regions.any fun r => r.contains fi

/-- Modelled from the spec: `CorefinementVisitor::remeshSplitFaces` is
declared in `cgalutils-corefinement-visitor.h`, which is not among the
sources here. Per the spec, for every recorded split region it
re-triangulates just that region's face set, while faces outside any
recorded region are untouched and vertex coordinates are unchanged.
`retriangulate` stands for the re-triangulation computed for a face of a
recorded region. -/
def remeshSplitFaces (retriangulate : ℕ → List ℕ) (regions : List (List ℕ))
    (m : TriangleMesh) : TriangleMesh :=
  { m with
    faces := (List.range m.faces.length).map fun fi =>
      if inRecordedRegion regions fi then retriangulate fi else m.faces.getD fi [] }

/-- The fold performed by `after_subface_creations` over the recorded faces. -/
def forceFacesFold (m : TriangleMesh) (fl : List ℕ) : TriangleMesh :=
  fl.foldl (fun mm fi => forceVertexList mm (verticesAroundFace mm fi)) m

theorem faces_setPoint (m : TriangleMesh) (v : ℕ) (p : Point3) :
    (m.setPoint v p).faces = m.faces := rfl

theorem points_length_setPoint (m : TriangleMesh) (v : ℕ) (p : Point3) :
    (m.setPoint v p).points.length = m.points.length := by
  simp [TriangleMesh.setPoint]

theorem isExact_forceExact (p : Point3) : p.forceExact.isExact := by
  simp [Point3.forceExact, Point3.isExact, CGAL.exact]

theorem isExact_default : (default : Point3).isExact := by
  constructor <;> try constructor
  all_goals rfl

theorem point_setPoint_self (m : TriangleMesh) (v : ℕ) (p : Point3)
    (h : v < m.points.length) : (m.setPoint v p).point v = p := by
  simp only [TriangleMesh.point, TriangleMesh.setPoint, List.getD_eq_getElem?_getD]
  rw [List.getElem?_set_eq_of_lt p h]
  rfl

theorem point_setPoint_ne (m : TriangleMesh) (v w : ℕ) (p : Point3)
    (h : v ≠ w) : (m.setPoint v p).point w = m.point w := by
  simp only [TriangleMesh.point, TriangleMesh.setPoint, List.getD_eq_getElem?_getD]
  rw [List.getElem?_set_ne h]

theorem point_eq_default_of_le (m : TriangleMesh) (w : ℕ)
    (h : m.points.length ≤ w) : m.point w = default := by
  simp only [TriangleMesh.point, List.getD_eq_getElem?_getD]
  rw [List.getElem?_eq_none h]
  rfl

theorem isExact_point_force_step (m : TriangleMesh) (v w : ℕ)
    (h : (m.point w).isExact) :
    ((m.setPoint v (m.point v).forceExact).point w).isExact := by
  by_cases hvw : v = w
  · subst hvw
    by_cases hlen : v < m.points.length
    · rw [point_setPoint_self m v _ hlen]
      exact isExact_forceExact _
    · rw [point_eq_default_of_le _ v (by simpa [points_length_setPoint] using hlen)]
      exact isExact_default
  · rw [point_setPoint_ne m v w _ hvw]
    exact h

theorem faces_forceVertexList (m : TriangleMesh) (l : List ℕ) :
    (forceVertexList m l).faces = m.faces := by
  induction l generalizing m with
  | nil => rfl
  | cons u l ih => exact (ih _).trans rfl

theorem points_length_forceVertexList (m : TriangleMesh) (l : List ℕ) :
    (forceVertexList m l).points.length = m.points.length := by
  induction l generalizing m with
  | nil => rfl
  | cons u l ih => exact (ih _).trans (points_length_setPoint m u _)

theorem isExact_point_forceVertexList (m : TriangleMesh) (l : List ℕ) (w : ℕ)
    (h : (m.point w).isExact) :
    ((forceVertexList m l).point w).isExact := by
  induction l generalizing m with
  | nil => exact h
  | cons u l ih => exact ih _ (isExact_point_force_step m u w h)

theorem isExact_point_forceVertexList_mem (m : TriangleMesh) (l : List ℕ) (v : ℕ)
    (hv : v ∈ l) (hlen : v < m.points.length) :
    ((forceVertexList m l).point v).isExact := by
  induction l generalizing m with
  | nil => cases hv
  | cons u l ih =>
    have hstep : forceVertexList m (u :: l) =
        forceVertexList (m.setPoint u (m.point u).forceExact) l := rfl
    rcases List.mem_cons.mp hv with h | h
    · subst h
      rw [hstep]
      apply isExact_point_forceVertexList
      rw [point_setPoint_self m v _ hlen]
      exact isExact_forceExact _
    · rw [hstep]
      exact ih _ h (by rw [points_length_setPoint]; exact hlen)

theorem faces_forceFacesFold (m : TriangleMesh) (fl : List ℕ) :
    (forceFacesFold m fl).faces = m.faces := by
  induction fl generalizing m with
  | nil => rfl
  | cons g fl ih => exact (ih _).trans (faces_forceVertexList m _)

theorem points_length_forceFacesFold (m : TriangleMesh) (fl : List ℕ) :
    (forceFacesFold m fl).points.length = m.points.length := by
  induction fl generalizing m with
  | nil => rfl
  | cons g fl ih => exact (ih _).trans (points_length_forceVertexList m _)

theorem isExact_point_forceFacesFold (m : TriangleMesh) (fl : List ℕ) (w : ℕ)
    (h : (m.point w).isExact) :
    ((forceFacesFold m fl).point w).isExact := by
  induction fl generalizing m with
  | nil => exact h
  | cons g fl ih => exact ih _ (isExact_point_forceVertexList m _ w h)

theorem verticesAroundFace_forceVertexList (m : TriangleMesh) (l : List ℕ) (fi : ℕ) :
    verticesAroundFace (forceVertexList m l) fi = verticesAroundFace m fi := by
  unfold verticesAroundFace
  rw [faces_forceVertexList]

theorem isExact_point_forceFacesFold_mem (m : TriangleMesh) (fl : List ℕ) (fi v : ℕ)
    (hfi : fi ∈ fl) (hv : v ∈ verticesAroundFace m fi) (hlen : v < m.points.length) :
    ((forceFacesFold m fl).point v).isExact := by
  induction fl generalizing m with
  | nil => cases hfi
  | cons g fl ih =>
    have hstep : forceFacesFold m (g :: fl) =
        forceFacesFold (forceVertexList m (verticesAroundFace m g)) fl := rfl
    rcases List.mem_cons.mp hfi with h | h
    · subst h
      rw [hstep]
      exact isExact_point_forceFacesFold _ fl v
        (isExact_point_forceVertexList_mem m _ v hv hlen)
    · rw [hstep]
      exact ih _ h (by rw [verticesAroundFace_forceVertexList]; exact hv)
        (by rw [points_length_forceVertexList]; exact hlen)

theorem foldl_after_subface_created (vis : ExactLazyNumbersVisitor) (l : List ℕ) :
    l.foldl after_subface_created vis =
      ⟨vis.split_face, vis.created_faces ++ l⟩ := by
  induction l generalizing vis with
  | nil => simp
  | cons fi l ih => simp [after_subface_created, ih]

theorem after_subface_creations_eq (vis : ExactLazyNumbersVisitor) (m : TriangleMesh) :
    after_subface_creations vis m =
      ({ vis with created_faces := [] }, forceFacesFold m vis.created_faces) := rfl

theorem processEventThreePhase_eq (vis : ExactLazyNumbersVisitor) (m : TriangleMesh)
    (e : SplitEvent) :
    processEventThreePhase vis m e =
      (⟨e.splitFace, []⟩, forceFacesFold m e.createdFaces) := by
  show after_subface_creations
      (e.createdFaces.foldl after_subface_created (before_subface_creations vis e.splitFace)) m = _
  rw [foldl_after_subface_created, after_subface_creations_eq]
  simp [before_subface_creations]

theorem processEventPerVertex_eq (m : TriangleMesh) (e : SplitEvent) :
    processEventPerVertex m e = forceVertexList m e.newVertices := rfl

/-- Claim C1: For every operation call (union, intersection, difference), the
driver resolves the two policy toggles into exactly one of four
configurations: with neither toggle enabled it delegates to the engine with
no observers; with ForceExactNumbers only it attaches the exactness-forcing
visitor alone; with RemeshAfterSplit only it attaches the remesh coordinator
constructed with exactness-forcing disabled; with both enabled it attaches a
single combined coordinator constructed with exactness-forcing enabled and
runs the remesh pass after the engine call returns. -/
theorem driver_resolves_four_configurations (op : Op) (e r : Bool) :
    (execute op (fun _ => ⟨false, false⟩) e r).2 =
      [.readRemeshToggle false, .readExactToggle false,
       .engineCall op .noObservers e] ∧
    (execute op (fun _ => ⟨false, true⟩) e r).2 =
      [.readRemeshToggle false, .readExactToggle true,
       .engineCall op .exactLazyNumbersVisitor e] ∧
    (execute op (fun _ => ⟨true, false⟩) e r).2 =
      [.readRemeshToggle true, .readExactToggle false,
       .engineCall op (.corefinementVisitor false) e, .remeshPass r] ∧
    (execute op (fun _ => ⟨true, true⟩) e r).2 =
      [.readRemeshToggle true, .readExactToggle true,
       .engineCall op (.corefinementVisitor true) e, .remeshPass r] := by
  cases op <;> exact ⟨rfl, rfl, rfl, rfl⟩

/-- Claim C3 counterexample: with RemeshAfterSplit enabled and the engine
reporting failure (the union entry point returns `false`), the driver still
runs the remesh pass, contradicting the claim that a failed operation skips
remeshing. -/
theorem remesh_runs_despite_engine_failure :
    (corefineAndComputeUnion (fun _ => ⟨true, false⟩) false true).1 = false ∧
    Ev.remeshPass true ∈
      (corefineAndComputeUnion (fun _ => ⟨true, false⟩) false true).2 := by
  decide

/-- Claim C3 amended: with RemeshAfterSplit enabled the remesh pass is performed
unconditionally after the engine call returns, whether the engine reported
success or failure. -/
theorem remesh_pass_unconditional (op : Op) (x e r : Bool) :
    (execute op (fun _ => ⟨true, x⟩) e r).2 =
      [.readRemeshToggle true, .readExactToggle x,
       .engineCall op (.corefinementVisitor x) e, .remeshPass r] := by
  cases op <;> cases x <;> rfl

/-- Claim C4 counterexample: with RemeshAfterSplit enabled, an engine success
combined with a failed remesh pass still makes the driver return `true`,
contradicting the claim that a remeshing failure makes the operation return
`false` from the driver. -/
theorem remesh_failure_not_propagated :
    (corefineAndComputeUnion (fun _ => ⟨true, true⟩) true false).1 = true ∧
    Ev.remeshPass false ∈
      (corefineAndComputeUnion (fun _ => ⟨true, true⟩) true false).2 := by
  decide

/-- Claim C4 amended: the driver's return value is exactly the engine's result;
the outcome of the remesh pass never changes it. -/
theorem driver_returns_engine_result (op : Op) (cfg : ℕ → FeatureState)
    (e r : Bool) : (execute op cfg e r).1 = e := by
  cases op <;>
    simp only [execute, corefineAndComputeUnion, corefineAndComputeIntersection,
      corefineAndComputeDifference, corefineAndComputeBody] <;>
    split
  all_goals first
    | rfl
    | (split <;> rfl)

/-- Claim C8: each of the two process-wide toggles is read exactly once, at the
start of the call before the engine is invoked (the trace begins with the
two reads and contains no further toggle read), and the whole call behaves
as if the configuration were the snapshot taken by those two reads. -/
theorem toggles_read_once_snapshot (op : Op) (cfg : ℕ → FeatureState)
    (e r : Bool) :
    (∃ rest, (execute op cfg e r).2 =
        Ev.readRemeshToggle (cfg 0).remeshEnabled ::
          Ev.readExactToggle (cfg 1).exactEnabled :: rest ∧
        ∀ ev ∈ rest, ev.isToggleRead = false) ∧
    execute op cfg e r =
      execute op (fun _ => ⟨(cfg 0).remeshEnabled, (cfg 1).exactEnabled⟩) e r := by
  refine ⟨?_, by cases op <;> rfl⟩
  cases op <;>
    simp only [execute, corefineAndComputeUnion, corefineAndComputeIntersection,
      corefineAndComputeDifference, corefineAndComputeBody] <;>
    split
  all_goals first
    | exact ⟨_, rfl, by simp [Ev.isToggleRead]⟩
    | (split <;> exact ⟨_, rfl, by simp [Ev.isToggleRead]⟩)

/-- Witness mesh: four vertices with pending lazy expressions and two faces
sharing the edge 1-2. -/
def meshW : TriangleMesh :=
  ⟨[⟨⟨1, 2⟩, ⟨2, 1⟩, ⟨3, 3⟩⟩, ⟨⟨0, 1⟩, ⟨1, 4⟩, ⟨2, 2⟩⟩,
    ⟨⟨5, 1⟩, ⟨6, 2⟩, ⟨7, 3⟩⟩, ⟨⟨8, 2⟩, ⟨9, 5⟩, ⟨10, 1⟩⟩],
   [[0, 1, 2], [1, 2, 3]]⟩

/-- Witness split event: face 0 was split into faces 0 and 1, introducing
vertex 3. -/
def eventW : SplitEvent := ⟨0, [0, 1], [3]⟩

/-- Witness visitor state, with a stale recorded-face buffer. -/
def visW : ExactLazyNumbersVisitor := ⟨9, [1]⟩

/-- Claim C2: under the exactness-forcing policy, every vertex introduced by
a split event has all three coordinate components fully evaluated — zero
pending deferred-evaluation depth — immediately after the split-event
notification returns: in the per-vertex shape directly, and in the
three-phase shape provided the introduced vertex lies on one of the created
faces; quantification over the event covers every split event of the call. -/
theorem split_event_vertices_exact (m : TriangleMesh) (e : SplitEvent)
    (vis : ExactLazyNumbersVisitor) (v : ℕ)
    (hv : v ∈ e.newVertices) (hlen : v < m.points.length)
    (hcov : ∃ fi ∈ e.createdFaces, v ∈ verticesAroundFace m fi) :
    ((processEventPerVertex m e).point v).isExact ∧
    ((processEventThreePhase vis m e).2.point v).isExact := by
  obtain ⟨fi, hfi, hvf⟩ := hcov
  constructor
  · rw [processEventPerVertex_eq]
    exact isExact_point_forceVertexList_mem m _ v hv hlen
  · rw [processEventThreePhase_eq]
    exact isExact_point_forceFacesFold_mem m _ fi v hfi hvf hlen

/-- Witness for C2 at vertex 3 of `meshW` under `eventW`. -/
theorem split_event_vertices_exact_witness :
    (3 ∈ eventW.newVertices ∧ 3 < meshW.points.length ∧
      ∃ fi ∈ eventW.createdFaces, 3 ∈ verticesAroundFace meshW fi) ∧
    ((processEventPerVertex meshW eventW).point 3).isExact ∧
    ((processEventThreePhase visW meshW eventW).2.point 3).isExact :=
  ⟨by decide,
   split_event_vertices_exact meshW eventW visW 3 (by decide) (by decide) (by decide)⟩

/-- Claim C5: in the three-phase shape, the end-phase callback forces every
vertex of every face recorded since the corresponding begin-phase to its
exact form and then clears the recorded set, so the recorded-face buffer is
empty after the end-phase returns. -/
theorem end_phase_forces_and_clears (vis : ExactLazyNumbersVisitor)
    (m : TriangleMesh) (e : SplitEvent) (fi v : ℕ)
    (hfi : fi ∈ e.createdFaces) (hv : v ∈ verticesAroundFace m fi)
    (hlen : v < m.points.length) :
    (processEventThreePhase vis m e).1.created_faces = [] ∧
    ((processEventThreePhase vis m e).2.point v).isExact := by
  rw [processEventThreePhase_eq]
  exact ⟨rfl, isExact_point_forceFacesFold_mem m _ fi v hfi hv hlen⟩

/-- Witness for C5 at vertex 0 of recorded face 0. -/
theorem end_phase_forces_and_clears_witness :
    (0 ∈ eventW.createdFaces ∧ 0 ∈ verticesAroundFace meshW 0 ∧
      0 < meshW.points.length) ∧
    (processEventThreePhase visW meshW eventW).1.created_faces = [] ∧
    ((processEventThreePhase visW meshW eventW).2.point 0).isExact :=
  ⟨by decide,
   end_phase_forces_and_clears visW meshW eventW 0 0 (by decide) (by decide) (by decide)⟩

/-- Claim C6: the two split-event shapes — the per-new-vertex callback and
the three-phase begin/created/end callbacks, embedded as separate
definitions selected at build time with no runtime branch between them —
produce the same observable result: every split-introduced vertex
coordinate is exact once the event has been processed by either shape. -/
theorem event_shapes_equivalent (m : TriangleMesh) (e : SplitEvent)
    (vis : ExactLazyNumbersVisitor)
    (hvalid : ∀ v ∈ e.newVertices, v < m.points.length)
    (hcov : ∀ v ∈ e.newVertices, ∃ fi ∈ e.createdFaces, v ∈ verticesAroundFace m fi) :
    ((∀ v ∈ e.newVertices, ((processEventPerVertex m e).point v).isExact) ↔
      (∀ v ∈ e.newVertices, ((processEventThreePhase vis m e).2.point v).isExact)) ∧
    (∀ v ∈ e.newVertices, ((processEventPerVertex m e).point v).isExact) := by
  have ha : ∀ v ∈ e.newVertices, ((processEventPerVertex m e).point v).isExact := by
    intro v hv
    rw [processEventPerVertex_eq]
    exact isExact_point_forceVertexList_mem m _ v hv (hvalid v hv)
  have hb : ∀ v ∈ e.newVertices,
      ((processEventThreePhase vis m e).2.point v).isExact := by
    intro v hv
    obtain ⟨fi, hfi, hvf⟩ := hcov v hv
    rw [processEventThreePhase_eq]
    exact isExact_point_forceFacesFold_mem m _ fi v hfi hvf (hvalid v hv)
  exact ⟨⟨fun _ => hb, fun _ => ha⟩, ha⟩

/-- Witness for C6 on `meshW`, `eventW`, `visW`. -/
theorem event_shapes_equivalent_witness :
    ((∀ v ∈ eventW.newVertices, v < meshW.points.length) ∧
      ∀ v ∈ eventW.newVertices,
        ∃ fi ∈ eventW.createdFaces, v ∈ verticesAroundFace meshW fi) ∧
    ((∀ v ∈ eventW.newVertices, ((processEventPerVertex meshW eventW).point v).isExact) ↔
      (∀ v ∈ eventW.newVertices,
        ((processEventThreePhase visW meshW eventW).2.point v).isExact)) :=
  ⟨by decide, (event_shapes_equivalent meshW eventW visW (by decide) (by decide)).1⟩

/-- Claim C10: the end-phase callback forces exactness on every vertex of
every recorded created face, with no requirement that the vertex be newly
introduced by the split; hence after the end-phase all vertices incident to
the created faces — pre-existing shared ones included — are exact. -/
theorem end_phase_forces_preexisting_vertices (vis : ExactLazyNumbersVisitor)
    (m : TriangleMesh) (fi v : ℕ)
    (hfi : fi ∈ vis.created_faces) (hv : v ∈ verticesAroundFace m fi)
    (hlen : v < m.points.length) :
    ((after_subface_creations vis m).2.point v).isExact := by
  rw [after_subface_creations_eq]
  exact isExact_point_forceFacesFold_mem m _ fi v hfi hv hlen

/-- Witness for C10: vertex 1 of face 1 exists before the split (it is shared
with face 0) and is still forced exact by the end-phase. -/
theorem end_phase_forces_preexisting_vertices_witness :
    (1 ∈ visW.created_faces ∧ 1 ∈ verticesAroundFace meshW 1 ∧
      1 < meshW.points.length) ∧
    ((after_subface_creations visW meshW).2.point 1).isExact :=
  ⟨by decide,
   end_phase_forces_preexisting_vertices visW meshW 1 1 (by decide) (by decide) (by decide)⟩

/-- Witness recorded split regions: face 1 forms the only recorded region. -/
def regionsW : List (List ℕ) := [[1]]

/-- Claim C7 (against the spec-modelled remesh pass): with RemeshAfterSplit
enabled, every face of the output mesh not contained in any recorded split
region is bit-identical after the remesh pass — same vertex-index list, and
every vertex coordinate of the mesh unchanged — while only recorded regions
may be re-triangulated. -/
theorem remesh_preserves_untouched_faces (retriangulate : ℕ → List ℕ)
    (regions : List (List ℕ)) (m : TriangleMesh) (fi : ℕ)
    (hfi : fi < m.faces.length) (hout : inRecordedRegion regions fi = false) :
    (remeshSplitFaces retriangulate regions m).faces.getD fi [] =
      m.faces.getD fi [] ∧
    ∀ v : ℕ, (remeshSplitFaces retriangulate regions m).point v = m.point v := by
  constructor
  · have hlt : fi < (((List.range m.faces.length).map fun j =>
        if inRecordedRegion regions j then retriangulate j
        else m.faces.getD j [])).length := by
      simpa using hfi
    show (((List.range m.faces.length).map fun j =>
        if inRecordedRegion regions j then retriangulate j
        else m.faces.getD j [])).getD fi [] = m.faces.getD fi []
    rw [List.getD_eq_getElem?_getD, List.getElem?_eq_getElem hlt]
    simp [List.getElem_range, hout]
  · intro v
    rfl

/-- Witness for C7: face 0 lies outside the recorded region `regionsW`. -/
theorem remesh_preserves_untouched_faces_witness :
    (0 < meshW.faces.length ∧ inRecordedRegion regionsW 0 = false) ∧
    (remeshSplitFaces (fun _ => [5, 6, 7]) regionsW meshW).faces.getD 0 [] =
      meshW.faces.getD 0 [] ∧
    ∀ v : ℕ, (remeshSplitFaces (fun _ => [5, 6, 7]) regionsW meshW).point v =
      meshW.point v :=
  ⟨by decide,
   remesh_preserves_untouched_faces (fun _ => [5, 6, 7]) regionsW meshW 0
     (by decide) (by decide)⟩

end Corefine
